import Mathlib

/-!
Verification of the `readlen` CLI (reading statistics for text files).

The development shallowly embeds the TypeScript sources:
* `processText` (word / character / paragraph counts and reading time),
* `formatReadTime` (duration rendering),
* the file resolver, per-path analyzer and report builder of the
  `processFiles` entry point.

Strings are modelled as `List Char`; the JavaScript `toLowerCase` is
modelled by ASCII lower-casing (`Char.toLower`), and the regular
expressions `/\s+/` and `/\n\s*\n/` are modelled by explicit structural
scanners whose behaviour matches leftmost-greedy regex splitting.
-/

namespace Readlen

/-- The whitespace class of the JavaScript regex class `\s` (regex `/\s/`):
tab, line feed, vertical tab, form feed, carriage return, space, NBSP,
Ogham space mark, the U+2000–U+200A range, line/paragraph separators,
narrow NBSP, medium mathematical space, ideographic space, BOM. -/
def isJsWs (c : Char) : Bool :=
  let n := c.toNat
  (9 ≤ n && n ≤ 13) || n == 32 || n == 160 || n == 5760 ||
  (8192 ≤ n && n ≤ 8202) || n == 8232 || n == 8233 || n == 8239 ||
  n == 8287 || n == 12288 || n == 65279

/-- Model of JavaScript `String.prototype.split(/\s+/)`: the list of
substrings between maximal whitespace runs.  As in JavaScript, a leading
(resp. trailing) whitespace run produces a leading (resp. trailing)
empty token, and the split of the empty string is `[""]`. -/
def jsSplitWs : List Char → List (List Char)
  | [] => [[]]
  | c :: cs =>
    if isJsWs c then
      match cs with
      | [] => [[], []]
      | d :: _ => if isJsWs d then jsSplitWs cs else [] :: jsSplitWs cs
    else
      match jsSplitWs cs with
      | [] => [[c]]
      | t :: ts => (c :: t) :: ts

/-- Suffix of a character list strictly after its last newline
(the whole list when it has no newline). -/
def afterLastNl (l : List Char) : List Char :=
  (l.reverse.takeWhile (fun c => c ≠ '\n')).reverse

/-- Model of JavaScript `String.prototype.split(/\n\s*\n/)` as a
structural scanner.  A leftmost-greedy match of `/\n\s*\n/` starts at
the first newline that is followed, within the maximal whitespace run
after it, by another newline, and extends to the last newline of that
run.  The scanner keeps the current segment in `acc` and, once a
newline is seen, buffers the subsequent whitespace run in `pending`
(which is then `'\n'` followed by whitespace); when the run is ended by
a non-whitespace character or the end of input, the buffer is a
separator exactly when it contains a second newline, and the part of
the buffer after its last newline starts the next segment. -/
def parSplitGo : List Char → List Char → List Char → List (List Char)
  | [], acc, pending =>
    if 2 ≤ pending.countP (fun c => c = '\n') then
      [acc, afterLastNl pending]
    else
      [acc ++ pending]
  | c :: cs, acc, pending =>
    if pending.isEmpty then
      if c = '\n' then parSplitGo cs acc [c]
      else parSplitGo cs (acc ++ [c]) []
    else
      if isJsWs c then parSplitGo cs acc (pending ++ [c])
      else
        if 2 ≤ pending.countP (fun c => c = '\n') then
          acc :: parSplitGo cs (afterLastNl pending ++ [c]) []
        else
          parSplitGo cs (acc ++ pending ++ [c]) []

/-- Split on blank-line boundaries (model of `.split(/\n\s*\n/)`). -/
def jsSplitPar (s : List Char) : List (List Char) := parSplitGo s [] []

/-- Model of `Math.ceil(a / b)` for natural `a` and positive natural `b`. -/
def mathCeilDiv (a b : Nat) : Nat := (a + b - 1) / b

/-- Per-text statistics (the `Omit<FileStats, "path">` record). -/
structure TextStats where
  wordCount : Nat
  charCount : Nat
  paragraphCount : Nat
  readTime : Nat
  deriving Repr, DecidableEq

/-- The constant `SILENT_READING_WPM`: median silent reading rate
(words per minute). -/
def SILENT_READING_WPM : Nat := 238

/-- Embedding of `processText` from `src/index.ts`:
lower-case the text, split on `/\s+/` discarding empty tokens for the
word count, take the length of the normalized text for the character
count, split on `/\n\s*\n/` discarding empty segments for the paragraph
count, and round `wordCount / 238` up for the read time.
`toLowerCase` is modelled by ASCII lower-casing (`Char.toLower`). -/
def processText (text : List Char) : TextStats :=
  let normalizedText := text.map Char.toLower
  let words := (jsSplitWs normalizedText).filter (fun t => !t.isEmpty)
  let wordCount := words.length
  let charCount := normalizedText.length
  let paragraphCount :=
    ((jsSplitPar normalizedText).filter (fun t => !t.isEmpty)).length
  let readTime := mathCeilDiv wordCount SILENT_READING_WPM
  { wordCount, charCount, paragraphCount, readTime }

/-- Wrapper taking a Lean `String`. -/
def processTextStr (text : String) : TextStats := processText text.data

/-! ### Specification-side word counting

The number of maximal non-whitespace runs, counted by a left-to-right
scan; the flag records whether the previous character was
non-whitespace (i.e. whether we are inside a run). -/

def runCountAux : Bool → List Char → Nat
  | _, [] => 0
  | inRun, c :: cs =>
    if isJsWs c then runCountAux false cs
    else (if inRun then 0 else 1) + runCountAux true cs

/-- The number of maximal non-whitespace runs of a character list. -/
def runCount (s : List Char) : Nat := runCountAux false s

theorem jsSplitWs_ne_nil (s : List Char) : jsSplitWs s ≠ [] := by
  induction s with
  | nil => simp [jsSplitWs]
  | cons c cs ih =>
    rw [jsSplitWs.eq_def]
    by_cases hc : isJsWs c
    · cases cs with
      | nil => simp [hc]
      | cons d ds => by_cases hd : isJsWs d <;> simp [hc, hd, ih]
    · simp only [hc, if_false]
      rcases hs : jsSplitWs cs with _ | ⟨t, ts⟩
      · exact absurd hs ih
      · simp

/-- Number of nonempty tokens of a token list. -/
def tokCount (l : List (List Char)) : Nat :=
  (l.filter (fun t => !t.isEmpty)).length

theorem tokCount_nil : tokCount [] = 0 := rfl

theorem tokCount_cons (t : List Char) (ts : List (List Char)) :
    tokCount (t :: ts) = (if t.isEmpty then 0 else 1) + tokCount ts := by
  by_cases h : t.isEmpty <;> simp [tokCount, h, Nat.add_comm]

/-- Joint induction: the filtered token count of the regex split agrees
with the run count, both from outside a run (`false`) and when the head
of the split continues a run already begun (`true`, in which case the
head token of the split is dropped). -/
theorem tokCount_jsSplitWs_eq_runCountAux (s : List Char) :
    tokCount (jsSplitWs s) = runCountAux false s ∧
      tokCount (jsSplitWs s).tail = runCountAux true s := by
  induction s with
  | nil => simp [jsSplitWs, tokCount, runCountAux]
  | cons c cs ih =>
    obtain ⟨ihF, ihT⟩ := ih
    rw [jsSplitWs.eq_def]
    by_cases hc : isJsWs c
    · cases cs with
      | nil => simp [hc, tokCount, runCountAux, List.isEmpty]
      | cons d ds =>
        by_cases hd : isJsWs d
        · have hT : runCountAux true (d :: ds) = runCountAux false (d :: ds) := by
            simp [runCountAux, hd]
          refine ⟨?_, ?_⟩
          · simpa [hc, hd, runCountAux] using ihF
          · simpa [hc, hd, runCountAux, hT] using ihT.trans hT
        · refine ⟨?_, ?_⟩
          · simpa [hc, hd, runCountAux, tokCount_cons] using ihF
          · simpa [hc, hd, runCountAux] using ihF
    · rcases hs : jsSplitWs cs with _ | ⟨t, ts⟩
      · exact absurd hs (jsSplitWs_ne_nil cs)
      · have hT : tokCount ts = runCountAux true cs := by
          simpa [hs] using ihT
        refine ⟨?_, ?_⟩
        · simp [hc, hs, runCountAux, tokCount_cons, hT, Nat.add_comm]
        · simpa [hc, hs, runCountAux, tokCount] using hT

/-- The word count of the regex split equals the number of maximal
non-whitespace runs. -/
theorem tokCount_jsSplitWs (s : List Char) :
    tokCount (jsSplitWs s) = runCount s :=
  (tokCount_jsSplitWs_eq_runCountAux s).1

/-! ### Facts about ASCII lower-casing -/

theorem char_toNat_ofNat {m : Nat} (h : m < 55296) :
    (Char.ofNat m).toNat = m := by
  have hv : m.isValidChar := Or.inl h
  simp [Char.ofNat, hv, Char.ofNatAux, Char.toNat, UInt32.toNat,
    BitVec.toNat_ofNatLt]

theorem toLower_toLower (c : Char) :
    (Char.toLower c).toLower = Char.toLower c := by
  by_cases h : c.toNat ≥ 65 ∧ c.toNat ≤ 90
  · have h1 : c.toLower = Char.ofNat (c.toNat + 32) := by
      simp [Char.toLower, h]
    have ht : (Char.ofNat (c.toNat + 32)).toNat = c.toNat + 32 :=
      char_toNat_ofNat (by omega)
    rw [h1]
    simp only [Char.toLower, ht]
    rw [if_neg (by omega)]
  · have h1 : c.toLower = c := by simp [Char.toLower, h]
    rw [h1, h1]

theorem toLower_eq_self_of_ws {c : Char} (h : isJsWs c = true) :
    Char.toLower c = c := by
  have hn : ¬(c.toNat ≥ 65 ∧ c.toNat ≤ 90) := by
    simp [isJsWs] at h
    omega
  simp [Char.toLower, hn]

theorem map_toLower_idem (t : List Char) :
    (t.map Char.toLower).map Char.toLower = t.map Char.toLower := by
  rw [List.map_map]
  exact List.map_congr_left fun c _ => toLower_toLower c

/-! ### Ceiling division -/

theorem mathCeilDiv_eq_ceil (n : Nat) :
    mathCeilDiv n 238 = ⌈(n : ℚ) / 238⌉₊ := by
  apply le_antisymm
  · have hle : (n : ℚ) / 238 ≤ (⌈(n : ℚ) / 238⌉₊ : ℚ) := Nat.le_ceil _
    rw [div_le_iff₀ (by norm_num)] at hle
    have hn : n ≤ ⌈(n : ℚ) / 238⌉₊ * 238 := by exact_mod_cast hle
    show (n + 238 - 1) / 238 ≤ ⌈(n : ℚ) / 238⌉₊
    omega
  · apply Nat.ceil_le.mpr
    rw [div_le_iff₀ (by norm_num)]
    have hn : n ≤ mathCeilDiv n 238 * 238 := by
      show n ≤ (n + 238 - 1) / 238 * 238
      omega
    exact_mod_cast hn

/-- All-whitespace lists have no non-whitespace run. -/
theorem runCountAux_eq_zero_of_ws (b : Bool) (s : List Char)
    (h : ∀ c ∈ s, isJsWs c = true) : runCountAux b s = 0 := by
  induction s generalizing b with
  | nil => rfl
  | cons c cs ih =>
    have hc := h c (List.mem_cons_self ..)
    simp only [runCountAux, hc, if_true]
    exact ih false fun d hd => h d (List.mem_cons_of_mem _ hd)

/-- A text made of `n` words: `n` copies of `"a "`. -/
def repWords (n : Nat) : List Char := (List.replicate n ['a', ' ']).flatten

set_option maxRecDepth 40000 in
/-- C1: For every input string, `processText` returns
`readTime = ⌈wordCount / 238⌉`, a non-negative integer number of minutes
that is `0` if and only if `wordCount` is `0`; in particular 238 words
give `readTime` 1, 239 words give `readTime` 2, and 0 words give
`readTime` 0. -/
theorem claim_C1_readTime (t : List Char) :
    (processText t).readTime = ⌈((processText t).wordCount : ℚ) / 238⌉₊ ∧
      ((processText t).readTime = 0 ↔ (processText t).wordCount = 0) ∧
      ((processText (repWords 238)).wordCount = 238 ∧
        (processText (repWords 238)).readTime = 1) ∧
      ((processText (repWords 239)).wordCount = 239 ∧
        (processText (repWords 239)).readTime = 2) ∧
      ((processText []).wordCount = 0 ∧ (processText []).readTime = 0) := by
  have hrt : (processText t).readTime
      = mathCeilDiv (processText t).wordCount 238 := rfl
  refine ⟨hrt.trans (mathCeilDiv_eq_ceil _), ?_, ?_, ?_, ⟨rfl, rfl⟩⟩
  · rw [hrt]
    show ((processText t).wordCount + 238 - 1) / 238 = 0 ↔ _
    omega
  · exact ⟨by decide, by decide⟩
  · exact ⟨by decide, by decide⟩

/-- C2: For every input string `t`, `processText` returns
`wordCount` equal to the number of maximal non-whitespace runs in the
lower-cased form of `t`; an all-whitespace (in particular empty) string
yields `wordCount = 0`. -/
theorem claim_C2_wordCount (t : List Char) :
    (processText t).wordCount = runCount (t.map Char.toLower) ∧
      ((∀ c ∈ t, isJsWs c = true) → (processText t).wordCount = 0) := by
  have h1 : (processText t).wordCount
      = tokCount (jsSplitWs (t.map Char.toLower)) := rfl
  refine ⟨h1.trans (tokCount_jsSplitWs _), fun hws => ?_⟩
  rw [h1, tokCount_jsSplitWs]
  apply runCountAux_eq_zero_of_ws
  intro c hc
  rw [List.mem_map] at hc
  obtain ⟨d, hd, rfl⟩ := hc
  rw [toLower_eq_self_of_ws (hws d hd)]
  exact hws d hd

/-- Witness for C2 at the all-whitespace input `" \n"`. -/
theorem claim_C2_witness :
    (processText [' ', '\n']).wordCount = 0 :=
  (claim_C2_wordCount [' ', '\n']).2 (by decide)

/-- Witness for C1 at the input `"a"`. -/
theorem claim_C1_witness :
    (processText ['a']).readTime
      = ⌈((processText ['a']).wordCount : ℚ) / 238⌉₊ :=
  (claim_C1_readTime ['a']).1

/-- C9: `processText` is idempotent on its normalization: metrics
of the already-lower-cased text agree with metrics of the original in
every field. -/
theorem claim_C9_idempotent (t : List Char) :
    processText (t.map Char.toLower) = processText t := by
  simp only [processText, map_toLower_idem]

/-- Witness for C9 at the input `"A"`. -/
theorem claim_C9_witness :
    processText (['A'].map Char.toLower) = processText ['A'] :=
  claim_C9_idempotent ['A']

/-! ### Paragraph splitting -/

/-- A blank-line boundary: a newline, whitespace-only content, and
another newline (the shape matched by the separator regex
`/\n\s*\n/`). -/
def hasBlankLine (s : List Char) : Prop :=
  ∃ u w v, s = u ++ '\n' :: (w ++ '\n' :: v) ∧ ∀ c ∈ w, isJsWs c = true

/-- A count of two newlines in `'\n' :: p` forces a newline in `p`. -/
theorem mem_nl_of_countP {p : List Char}
    (hcnt : 2 ≤ (('\n' :: p).countP (fun c => c = '\n'))) : '\n' ∈ p := by
  by_contra hmem
  have h0 : p.countP (fun c => c = '\n') = 0 := by
    rw [List.countP_eq_zero]
    intro a ha
    simp only [decide_eq_true_eq]
    intro h
    exact hmem (h ▸ ha)
  rw [List.countP_cons_of_pos _ _ (by simp), h0] at hcnt
  omega

/-- A whitespace buffer that begins with a newline and contains a
second one exhibits a blank-line boundary wherever it sits. -/
theorem hasBlankLine_of_pending (acc p rest : List Char)
    (hws : ∀ c ∈ p, isJsWs c = true)
    (hmem : '\n' ∈ p) :
    hasBlankLine (acc ++ ('\n' :: p) ++ rest) := by
  obtain ⟨w, v, rfl⟩ := List.append_of_mem hmem
  refine ⟨acc, w, v ++ rest, by simp, fun c hc => hws c ?_⟩
  exact List.mem_append_left _ hc

/-- If the text contains no blank-line boundary, the paragraph scanner
never splits: it returns the single segment consisting of the whole
remaining text. -/
theorem parSplitGo_no_sep (rest : List Char) :
    ∀ acc pending : List Char,
      (pending = [] ∨
        ∃ p, pending = '\n' :: p ∧ ∀ c ∈ p, isJsWs c = true) →
      ¬ hasBlankLine (acc ++ pending ++ rest) →
      parSplitGo rest acc pending = [acc ++ pending ++ rest] := by
  induction rest with
  | nil =>
    intro acc pending hp hnb
    have hcnt : ¬ 2 ≤ (pending.countP (fun c => c = '\n')) := by
      intro hcnt
      rcases hp with rfl | ⟨p, rfl, hws⟩
      · simp at hcnt
      · exact hnb
          (hasBlankLine_of_pending acc p [] hws (mem_nl_of_countP hcnt))
    rw [parSplitGo, if_neg hcnt]
    simp
  | cons c cs ih =>
    intro acc pending hp hnb
    rw [parSplitGo]
    rcases hp with rfl | ⟨p, rfl, hws⟩
    · simp only [List.isEmpty_nil, if_true]
      by_cases hc : c = '\n'
      · subst hc
        rw [if_pos rfl, ih acc ['\n'] (Or.inr ⟨[], rfl, by simp⟩)
          (by simpa using hnb)]
        simp
      · rw [if_neg hc, ih (acc ++ [c]) [] (Or.inl rfl) (by simpa using hnb)]
        simp
    · simp only [List.isEmpty_cons, if_false]
      by_cases hcws : isJsWs c
      · rw [if_pos hcws]
        rw [ih acc ('\n' :: p ++ [c]) (Or.inr ⟨p ++ [c], by simp,
          fun d hd => by
            rcases List.mem_append.mp hd with h | h
            · exact hws d h
            · simpa using (List.mem_singleton.mp h) ▸ hcws⟩)
          (by simpa using hnb)]
        simp
      · have hcnt : ¬ 2 ≤ (('\n' :: p).countP (fun c => c = '\n')) := by
          intro hcnt
          exact hnb (hasBlankLine_of_pending acc p (c :: cs) hws
            (mem_nl_of_countP hcnt))
        rw [if_neg hcws, if_neg hcnt,
          ih (acc ++ ('\n' :: p) ++ [c]) [] (Or.inl rfl)
            (by simpa using hnb)]
        simp

/-- C7: For every input string, `processText` returns
`paragraphCount` equal to the number of non-empty segments obtained by
splitting the lower-cased text on blank-line boundaries; a non-empty
text with no blank line yields `paragraphCount = 1` and an empty text
yields `0`. -/
theorem claim_C7_paragraphCount (t : List Char) :
    (processText t).paragraphCount
        = tokCount (jsSplitPar (t.map Char.toLower)) ∧
      (t ≠ [] → ¬ hasBlankLine (t.map Char.toLower) →
        (processText t).paragraphCount = 1) ∧
      (processText []).paragraphCount = 0 := by
  refine ⟨rfl, fun hne hnb => ?_, rfl⟩
  have hsplit : jsSplitPar (t.map Char.toLower) = [t.map Char.toLower] := by
    have := parSplitGo_no_sep (t.map Char.toLower) [] [] (Or.inl rfl)
      (by simpa using hnb)
    simpa [jsSplitPar] using this
  have h1 : (processText t).paragraphCount
      = tokCount (jsSplitPar (t.map Char.toLower)) := rfl
  rw [h1, hsplit]
  have : (t.map Char.toLower).isEmpty = false := by
    cases t with
    | nil => exact absurd rfl hne
    | cons c cs => simp
  simp [tokCount, this]

/-- Witness for C7 at the non-empty, blank-line-free input `"a"`. -/
theorem claim_C7_witness : (processText ['a']).paragraphCount = 1 :=
  (claim_C7_paragraphCount ['a']).2.1 (by simp) (by
    rintro ⟨u, w, v, heq, -⟩
    have hlen := congrArg List.length heq
    simp [List.length_append] at hlen
    omega)

/-! ### Read-time formatting -/

/-- JavaScript truncation toward zero (used by the `%` remainder). -/
def jsTrunc (q : ℚ) : ℤ := if 0 ≤ q then ⌊q⌋ else ⌈q⌉

/-- JavaScript remainder `a % b`. -/
def jsMod (a b : ℚ) : ℚ := a - b * (jsTrunc (a / b) : ℚ)

/-- JavaScript `Math.round` (round half toward positive infinity). -/
def jsRound (q : ℚ) : ℤ := ⌊q + 1 / 2⌋

/-- Embedding of `formatReadTime` from `src/index.ts`:
`hours = Math.floor(minutes / 60)`,
`remainingMinutes = Math.floor(minutes % 60)`,
`seconds = Math.round((minutes % 1) * 60)`; push the non-zero
components (seconds only when `hours` is zero) with singular or plural
unit labels and join with a comma, or return `"< 1 second"` when no
component was pushed. -/
def formatReadTime (minutes : ℚ) : String :=
  let hours : ℤ := ⌊minutes / 60⌋
  let remainingMinutes : ℤ := ⌊jsMod minutes 60⌋
  let seconds : ℤ := jsRound (jsMod minutes 1 * 60)
  let parts : List String :=
    (if 0 < hours then
      [toString hours ++ (if hours = 1 then " hour" else " hours")]
     else []) ++
    (if 0 < remainingMinutes then
      [toString remainingMinutes ++
        (if remainingMinutes = 1 then " minute" else " minutes")]
     else []) ++
    (if 0 < seconds ∧ hours = 0 then
      [toString seconds ++ (if seconds = 1 then " second" else " seconds")]
     else [])
  if 0 < parts.length then String.intercalate (", ") parts
  else "< 1 second"

/-! Specification-side components: `hours = ⌊m/60⌋`,
`minutes = ⌊m mod 60⌋`, `seconds = round((m mod 1)·60)` with the
mathematical (floor-based) remainder. -/

def specHours (m : ℚ) : ℤ := ⌊m / 60⌋

def specMinutes (m : ℚ) : ℤ := ⌊m - 60 * (⌊m / 60⌋ : ℚ)⌋

def specSeconds (m : ℚ) : ℤ := ⌊(m - 1 * (⌊m / 1⌋ : ℚ)) * 60 + 1 / 2⌋

/-- The rendering described by the claim: non-zero components in order
hours, minutes, seconds, with singular/plural labels, seconds only when
hours is zero, and `"< 1 second"` when every component is absent. -/
def formatReadTimeSpec (m : ℚ) : String :=
  let parts : List String :=
    (if 0 < specHours m then
      [toString (specHours m) ++ (if specHours m = 1 then " hour" else " hours")]
     else []) ++
    (if 0 < specMinutes m then
      [toString (specMinutes m) ++
        (if specMinutes m = 1 then " minute" else " minutes")]
     else []) ++
    (if 0 < specSeconds m ∧ specHours m = 0 then
      [toString (specSeconds m) ++
        (if specSeconds m = 1 then " second" else " seconds")]
     else [])
  if 0 < parts.length then String.intercalate (", ") parts
  else "< 1 second"

theorem formatReadTime_eq_spec {m : ℚ} (hm : 0 ≤ m) :
    formatReadTime m = formatReadTimeSpec m := by
  have h60 : jsTrunc (m / 60) = ⌊m / 60⌋ := if_pos (by positivity)
  have h1 : jsTrunc (m / 1) = ⌊m / 1⌋ := if_pos (by positivity)
  simp only [formatReadTime, formatReadTimeSpec, specHours, specMinutes,
    specSeconds, jsMod, jsRound, h60, h1]

/-- C4: For every non-negative number of minutes `m`,
`formatReadTime m` emits the comma-joined non-zero components in order
hours `⌊m/60⌋`, minutes `⌊m mod 60⌋`, seconds `round((m mod 1)·60)`,
with singular/plural unit labels, seconds shown only when hours is
zero, and the literal `"< 1 second"` when every component is zero; in
particular `0 → "< 1 second"`, `1 → "1 minute"`,
`61 → "1 hour, 1 minute"`, `1.5 → "1 minute, 30 seconds"`. -/
theorem claim_C4_formatReadTime :
    (∀ m : ℚ, 0 ≤ m → formatReadTime m = formatReadTimeSpec m) ∧
      formatReadTime 0 = "< 1 second" ∧
      formatReadTime 1 = "1 minute" ∧
      formatReadTime 61 = "1 hour, 1 minute" ∧
      formatReadTime 1.5 = "1 minute, 30 seconds" := by
  refine ⟨fun m hm => formatReadTime_eq_spec hm, ?_, ?_, ?_, ?_⟩
  · norm_num [formatReadTime, jsMod, jsTrunc, jsRound]
  · norm_num [formatReadTime, jsMod, jsTrunc, jsRound]
    rfl
  · norm_num [formatReadTime, jsMod, jsTrunc, jsRound]
    rfl
  · norm_num [formatReadTime, jsMod, jsTrunc, jsRound]
    rfl

/-- Witness for C4 at `m = 2`. -/
theorem claim_C4_witness : formatReadTime 2 = formatReadTimeSpec 2 :=
  claim_C4_formatReadTime.1 2 (by norm_num)

/-! ### File-system model, resolver and analyzer

Paths are modelled as lists of components (absolute paths).  The
file-system collaborator maps paths to file states; only files are
modelled, matching `Bun.file(path).exists()` being false for
directories. -/

/-- State of a file: readable text, or a file whose read fails. -/
inductive FileState where
  | content (text : List Char)
  | unreadable
  deriving Repr, DecidableEq

/-- Flat file-system model: an association list from absolute paths to
file states. -/
structure FileSystem where
  entries : List (List String × FileState)
  deriving Repr, DecidableEq

def lookupFile (fs : FileSystem) (p : List String) : Option FileState :=
  fs.entries.lookup p

/-- Model of `Bun.file(path).exists()`. -/
def fileExists (fs : FileSystem) (p : List String) : Bool :=
  (lookupFile fs p).isSome

/-- Per-file statistics record (`FileStats` in the source). -/
structure FileStats where
  path : List String
  wordCount : Nat
  charCount : Nat
  paragraphCount : Nat
  readTime : Nat
  deriving Repr, DecidableEq

/-- The record `{ path, ...processText(content) }`. -/
def statsOf (path : List String) (text : List Char) : FileStats :=
  let s := processText text
  ⟨path, s.wordCount, s.charCount, s.paragraphCount, s.readTime⟩

/-- Embedding of `processFile`: throw when the file does not exist,
throw when reading its text fails, otherwise return the statistics. -/
def processFile (fs : FileSystem) (path : List String) :
    Except String FileStats :=
  match lookupFile fs path with
  | none => .error ("file not found")
  | some .unreadable => .error ("read error")
  | some (.content text) => .ok (statsOf path text)

/-- The extension allow-list of the glob patterns
`*.{txt,md,html,json}` and `**/*.{txt,md,html,json}`. -/
def ALLOWED_EXTS : List String := [".txt", ".md", ".html", ".json"]

def extAllowed (name : String) : Bool :=
  ALLOWED_EXTS.any (fun e => e.data.isSuffixOf name.data)

/-- Modelled collaborator: `Bun.Glob(pattern).scan({cwd: root,
absolute: true, onlyFiles: true})` for the two patterns above —
the files lying under `root` (directly for the non-recursive pattern,
at any depth for the recursive one) whose last component carries an
allowed extension, yielded as absolute paths. -/
def scanDir (fs : FileSystem) (root : List String) (recursive : Bool) :
    List (List String) :=
  (fs.entries.map Prod.fst).filter (fun p =>
    root.isPrefixOf p && decide (root.length < p.length) &&
      extAllowed (p.getLastD ("")) &&
      (recursive || decide (p.length = root.length + 1)))

/-- The resolver step of the `processFiles` loop: an existing file is
taken directly, anything else is treated as a directory root and
expanded through the glob. -/
def resolveArg (fs : FileSystem) (recursive : Bool) (path : List String) :
    List (List String) :=
  if fileExists fs path then [path] else scanDir fs path recursive

def resolvedPaths (fs : FileSystem) (recursive : Bool)
    (args : List (List String)) : List (List String) :=
  args.flatMap (resolveArg fs recursive)

/-- The analyzer loop: failures are caught per path and the path is
skipped; successes are pushed in order. -/
def collectResults (fs : FileSystem) (paths : List (List String)) :
    List FileStats :=
  paths.filterMap (fun p => (processFile fs p).toOption)

/-- The paths whose processing failed (each gets an error log line). -/
def collectErrors (fs : FileSystem) (paths : List (List String)) :
    List (List String) :=
  paths.filter (fun p => !(processFile fs p).toOption.isSome)

/-! ### Report -/

/-- The totals block printed when more than one file was analyzed. -/
structure Totals where
  files : Nat
  words : Nat
  chars : Nat
  paras : Nat
  readTimeFormatted : String
  deriving Repr, DecidableEq

/-- The rendered report: per-file blocks and an optional totals
block. -/
structure Report where
  perFile : List FileStats
  totals : Option Totals
  deriving Repr, DecidableEq

/-- Embedding of the reporting part of `processFiles` (part_001):
per-file blocks unless `totalOnly` is set; a totals block only when the
result list has more than one entry, with `reduce`-summed counts and
the summed raw minute total formatted once. -/
def mkReport (results : List FileStats) (totalOnly : Bool) : Report :=
  { perFile := if totalOnly then [] else results
    totals :=
      if 1 < results.length then
        some { files := results.length
               words := results.foldl (fun sum r => sum + r.wordCount) 0
               chars := results.foldl (fun sum r => sum + r.charCount) 0
               paras := results.foldl (fun sum r => sum + r.paragraphCount) 0
               readTimeFormatted := formatReadTime
                 ((results.foldl (fun sum r => sum + r.readTime) 0 : Nat) : ℚ) }
      else none }

/-- Embedding of the entry point after option parsing: exit code 1 and
no output when no file argument was given; otherwise resolve, analyze
and report, with exit code 0 (also when no valid files were found). -/
def runCli (fs : FileSystem) (recursive totalOnly : Bool)
    (args : List (List String)) : Nat × Report :=
  if args.isEmpty then (1, ⟨[], none⟩)
  else
    let results := collectResults fs (resolvedPaths fs recursive args)
    (0, mkReport results totalOnly)

/-! ### Totals -/

theorem foldl_add_eq_sum (f : FileStats → Nat) (l : List FileStats) :
    l.foldl (fun sum r => sum + f r) 0 = (l.map f).sum := by
  suffices h : ∀ init : Nat,
      l.foldl (fun sum r => sum + f r) init = init + (l.map f).sum by
    simpa using h 0
  induction l with
  | nil => simp
  | cons r rs ih =>
    intro init
    simp [List.foldl_cons, ih, Nat.add_assoc]

/-- The totals block of a multi-entry report, with the `reduce` sums
rewritten as `map`/`sum`. -/
theorem mkReport_totals_eq (results : List FileStats) (totalOnly : Bool)
    (h : 1 < results.length) :
    (mkReport results totalOnly).totals = some
      { files := results.length
        words := (results.map FileStats.wordCount).sum
        chars := (results.map FileStats.charCount).sum
        paras := (results.map FileStats.paragraphCount).sum
        readTimeFormatted := formatReadTime
          (((results.map FileStats.readTime).sum : Nat) : ℚ) } := by
  simp [mkReport, h, foldl_add_eq_sum]

/-- C3: The report includes a totals block if and only if the
result list has more than one entry, and its totals are the pointwise
sums of the per-file fields: file count, summed word, character and
paragraph counts, and the read time obtained by formatting the sum of
the raw per-file minute values once. -/
theorem claim_C3_totals (results : List FileStats) (totalOnly : Bool) :
    ((mkReport results totalOnly).totals.isSome ↔ 1 < results.length) ∧
      (1 < results.length →
        (mkReport results totalOnly).totals = some
          { files := results.length
            words := (results.map FileStats.wordCount).sum
            chars := (results.map FileStats.charCount).sum
            paras := (results.map FileStats.paragraphCount).sum
            readTimeFormatted := formatReadTime
              (((results.map FileStats.readTime).sum : Nat) : ℚ) }) := by
  constructor
  · by_cases h : 1 < results.length <;> simp [mkReport, h]
  · exact mkReport_totals_eq results totalOnly

/-- Witness for C3 at a two-element result list. -/
theorem claim_C3_witness :
    (mkReport [statsOf (["a.txt"]) ['h', 'i'],
      statsOf (["b.txt"]) ['y', 'o']] false).totals = some
        { files := 2
          words := ([statsOf (["a.txt"]) ['h', 'i'],
            statsOf (["b.txt"]) ['y', 'o']].map FileStats.wordCount).sum
          chars := ([statsOf (["a.txt"]) ['h', 'i'],
            statsOf (["b.txt"]) ['y', 'o']].map FileStats.charCount).sum
          paras := ([statsOf (["a.txt"]) ['h', 'i'],
            statsOf (["b.txt"]) ['y', 'o']].map FileStats.paragraphCount).sum
          readTimeFormatted := formatReadTime
            ((([statsOf (["a.txt"]) ['h', 'i'],
              statsOf (["b.txt"]) ['y', 'o']].map FileStats.readTime).sum
                : Nat) : ℚ) } :=
  (claim_C3_totals
    [statsOf (["a.txt"]) ['h', 'i'], statsOf (["b.txt"]) ['y', 'o']]
    false).2 (by simp)

/-- C8: When the totals-only flag is set and the result list has
exactly one entry, the report contains no per-file block and no totals
block. -/
theorem claim_C8_totalsOnly_single (results : List FileStats)
    (h : results.length = 1) :
    (mkReport results true).perFile = [] ∧
      (mkReport results true).totals = none := by
  simp [mkReport, h]

/-- Witness for C8 at a singleton result list. -/
theorem claim_C8_witness :
    (mkReport [statsOf (["a.txt"]) ['h', 'i']] true).perFile = [] ∧
      (mkReport [statsOf (["a.txt"]) ['h', 'i']] true).totals = none :=
  claim_C8_totalsOnly_single [statsOf (["a.txt"]) ['h', 'i']] rfl

/-- Ceiling division is superadditive, so summing per-file ceilings
dominates the ceiling of the summed word count. -/
theorem mathCeilDiv_sum_le (l : List Nat) :
    mathCeilDiv l.sum 238 ≤ (l.map (fun n => mathCeilDiv n 238)).sum := by
  induction l with
  | nil => simp [mathCeilDiv]
  | cons n ns ih =>
    simp only [List.sum_cons, List.map_cons]
    have h2 : mathCeilDiv (n + ns.sum) 238
        ≤ mathCeilDiv n 238 + mathCeilDiv ns.sum 238 := by
      show (n + ns.sum + 238 - 1) / 238 ≤ (n + 238 - 1) / 238 +
        (ns.sum + 238 - 1) / 238
      omega
    exact h2.trans (Nat.add_le_add_left ih _)

/-- C10: For every result list with more than one entry, the total
read time passed to the formatter equals the sum of the per-file
`readTime` values, each of which was already rounded up to a whole
minute; this sum always dominates `⌈(sum of word counts) / 238⌉`, and
strictly so for some inputs: two one-word files total 2 minutes while
`⌈2 / 238⌉ = 1`. -/
theorem claim_C10_total_readTime (results : List FileStats)
    (totalOnly : Bool) (hlen : 1 < results.length)
    (hrt : ∀ r ∈ results, r.readTime = mathCeilDiv r.wordCount 238) :
    ((mkReport results totalOnly).totals).map Totals.readTimeFormatted
        = some (formatReadTime
            (((results.map FileStats.readTime).sum : Nat) : ℚ)) ∧
      mathCeilDiv ((results.map FileStats.wordCount).sum) 238
        ≤ (results.map FileStats.readTime).sum ∧
      (([statsOf (["a.txt"]) ['a'],
          statsOf (["b.txt"]) ['b']].map FileStats.readTime).sum = 2 ∧
        mathCeilDiv (([statsOf (["a.txt"]) ['a'],
          statsOf (["b.txt"]) ['b']].map FileStats.wordCount).sum) 238
            = 1) := by
  refine ⟨?_, ?_, by decide, by decide⟩
  · rw [mkReport_totals_eq results totalOnly hlen]
    rfl
  · have hmap : results.map FileStats.readTime
        = results.map (fun r => mathCeilDiv r.wordCount 238) :=
      List.map_congr_left hrt
    have h := mathCeilDiv_sum_le (results.map FileStats.wordCount)
    rw [List.map_map] at h
    rw [hmap]
    exact h

/-- Witness for C10 at the two one-word files. -/
theorem claim_C10_witness :
    mathCeilDiv (([statsOf (["a.txt"]) ['a'],
      statsOf (["b.txt"]) ['b']].map FileStats.wordCount).sum) 238
        ≤ ([statsOf (["a.txt"]) ['a'],
          statsOf (["b.txt"]) ['b']].map FileStats.readTime).sum :=
  (claim_C10_total_readTime
    [statsOf (["a.txt"]) ['a'], statsOf (["b.txt"]) ['b']] false
    (by decide) (by decide)).2.1

/-! ### Resolver and error isolation -/

/-- C5: An argument naming an existing file is analyzed directly,
regardless of its extension; an argument treated as a directory is
expanded to exactly the files below it whose name ends with one of the
allowed extensions — directly inside it when non-recursive, at any
depth when recursive — yielded as absolute paths (the directory root
followed by a non-empty relative part), files only. -/
theorem claim_C5_resolver (fs : FileSystem) (arg : List String)
    (recursive : Bool) :
    (fileExists fs arg = true → resolveArg fs recursive arg = [arg]) ∧
      (fileExists fs arg = false → ∀ p : List String,
        p ∈ resolveArg fs recursive arg ↔
          p ∈ fs.entries.map Prod.fst ∧
            ∃ rel : List String, rel ≠ [] ∧ p = arg ++ rel ∧
              (∃ e ∈ ALLOWED_EXTS, e.data <:+ (p.getLastD ("")).data) ∧
              (recursive = false → rel.length = 1)) := by
  refine ⟨fun h => by simp [resolveArg, h], fun h p => ?_⟩
  simp only [resolveArg, h, Bool.false_eq_true, if_false, scanDir,
    List.mem_filter, Bool.and_eq_true, decide_eq_true_eq,
    List.isPrefixOf_iff_prefix, List.isSuffixOf_iff_suffix,
    Bool.or_eq_true, extAllowed, List.any_eq_true]
  constructor
  · rintro ⟨hmem, ⟨⟨⟨⟨rel, rfl⟩, hlt⟩, hext⟩, hrec⟩⟩
    refine ⟨hmem, rel, ?_, rfl, hext, ?_⟩
    · intro hrel
      rw [hrel] at hlt
      simp at hlt
    · intro hrecF
      rcases hrec with htrue | hlen
      · rw [hrecF] at htrue
        cases htrue
      · rw [List.length_append] at hlen
        omega
  · rintro ⟨hmem, rel, hne, rfl, hext, hrec1⟩
    have hpos : 0 < rel.length := List.length_pos.mpr hne
    refine ⟨hmem, ⟨⟨⟨⟨rel, rfl⟩, ?_⟩, hext⟩, ?_⟩⟩
    · rw [List.length_append]
      omega
    · cases hrecB : recursive
      · right
        rw [List.length_append, hrec1 hrecB]
      · left
        rfl

/-- A file system with a readable file and an unreadable one. -/
def exampleFS : FileSystem :=
  ⟨[(["good.txt"], .content ['h', 'i']), (["bad.txt"], .unreadable)]⟩

/-- A file system with a directory of mixed extensions, a nested file
and a stray file whose extension is outside the allow-list. -/
def exampleDirFS : FileSystem :=
  ⟨[(["docs", "a.txt"], .content ['x']),
    (["docs", "sub", "b.md"], .content ['y']),
    (["docs", "c.png"], .content ['z']),
    (["notes.csv"], .content ['w'])]⟩

/-- Witness for C5: a directly named file with a disallowed extension
is still resolved, and a matching file directly inside a directory is
yielded by the expansion. -/
theorem claim_C5_witness :
    resolveArg exampleDirFS false (["notes.csv"]) = [["notes.csv"]] ∧
      ["docs", "a.txt"] ∈ resolveArg exampleDirFS false (["docs"]) :=
  ⟨(claim_C5_resolver exampleDirFS ["notes.csv"] false).1 (by decide),
    ((claim_C5_resolver exampleDirFS ["docs"] false).2 (by decide)
        ["docs", "a.txt"]).mpr
      ⟨by decide, ["a.txt"], by decide, rfl,
        ⟨".txt", by decide, ['a'], by decide⟩, fun _ => rfl⟩⟩

/-- C6: A failure on one path is caught at the granularity of that
granularity: the path is reported among the errors and omitted from
the results, every other path is processed unaffected, and the exit
code stays 0; in particular, with one unreadable and one valid path
the result list holds exactly the valid entry. -/
theorem claim_C6_error_isolation (fs : FileSystem)
    (pre post : List (List String)) (p : List String)
    (hfail : (processFile fs p).toOption = none) :
    collectResults fs (pre ++ p :: post)
        = collectResults fs pre ++ collectResults fs post ∧
      p ∈ collectErrors fs (pre ++ p :: post) ∧
      (∀ recursive totalOnly : Bool, ∀ args : List (List String),
        args ≠ [] → (runCli fs recursive totalOnly args).1 = 0) ∧
      collectResults exampleFS
        (resolvedPaths exampleFS false [["bad.txt"], ["good.txt"]])
          = [statsOf (["good.txt"]) ['h', 'i']] ∧
      collectErrors exampleFS
        (resolvedPaths exampleFS false [["bad.txt"], ["good.txt"]])
          = [["bad.txt"]] ∧
      (runCli exampleFS false false [["bad.txt"], ["good.txt"]]).1 = 0 := by
  refine ⟨?_, ?_, ?_, by decide, by decide, by decide⟩
  · simp [collectResults, List.filterMap_append, hfail]
  · simp [collectErrors, List.mem_filter, hfail]
  · intro recursive totalOnly args hargs
    simp [runCli, List.isEmpty_iff, hargs]

/-- Witness for C6 at the unreadable path of `exampleFS`. -/
theorem claim_C6_witness :
    collectResults exampleFS ([] ++ ["bad.txt"] :: [["good.txt"]])
        = collectResults exampleFS []
          ++ collectResults exampleFS [["good.txt"]] :=
  (claim_C6_error_isolation exampleFS [] [["good.txt"]] ["bad.txt"]
    (by decide)).1

end Readlen

